import Mathlib

/-!
Shallow embedding of the real-time order-book/trade aggregation core of
`src/market_data_schwab/market_liquidity_real_time/steaming_client_bookmap_like.py`.

Modelling conventions:
* Prices (Python floats compared with `<=`, `>=`, `==`) are modelled as `ℚ`;
  sizes/volumes (Python `int(...)`) as `ℤ`; timestamps as `ℤ` (epoch ms).
* A Python value that may be `None` (a missing message field, an unset BBO
  field) is an `Option`.
* The per-symbol global dictionaries `current_bbo`, `order_book`, `trade_log`
  are modelled for a single symbol as one `MarketState` record; every claim is
  a per-symbol property.
* Python `OrderedDict` assignment is `odInsert` (update value in place if the
  key exists, else append); `sorted(...)` on distinct keys is modelled by
  insertion sort (`sortBidsDesc` / `sortAsksAsc`).
* `deque(maxlen=100).append` is `dequeAppend 100`.
* The handlers' `try/except` wrappers make every ingestion call total; the
  embedding's handlers are total Lean functions, and paths on which the Python
  body would raise before mutating state (e.g. `float(None)`) return the state
  unchanged.
-/

/-- Aggressor side of a trade, from `handle_timesale_equity`. -/
inductive Aggressor where
  | BUY
  | SELL
  | UNKNOWN
deriving DecidableEq, Repr

/-- `current_bbo[symbol]`: best bid/offer record
`{'bid_price': None, 'bid_size': None, 'ask_price': None, 'ask_size': None, 'timestamp': None}`. -/
structure BBO where
  bid_price : Option ℚ
  bid_size : Option ℤ
  ask_price : Option ℚ
  ask_size : Option ℤ
  timestamp : Option ℤ
deriving DecidableEq, Repr

/-- `order_book[symbol]`: `{'bids': OrderedDict(), 'asks': OrderedDict()}`,
each ordered dict modelled as its association list (price, totalVolume) in
iteration order. -/
structure Book where
  bids : List (ℚ × ℤ)
  asks : List (ℚ × ℤ)
deriving DecidableEq, Repr

/-- One entry of `trade_log[symbol]`: `{'time': ..., 'price': ..., 'volume': ..., 'aggressor': ...}`.
The Python code stores a formatted time string; we keep the underlying
millisecond timestamp the string is formatted from. -/
structure TradeRecord where
  time : ℤ
  price : ℚ
  volume : ℤ
  aggressor : Aggressor
deriving DecidableEq, Repr

/-- The per-symbol process state: `current_bbo`, `order_book`, `trade_log`. -/
structure MarketState where
  bbo : BBO
  book : Book
  tradeLog : List TradeRecord
deriving DecidableEq, Repr

/-- Level One Equity message content: fields `BID_PRICE`, `BID_SIZE`,
`ASK_PRICE`, `ASK_SIZE`, each possibly absent (`content.get(...)` yields
`None`). -/
structure L1Msg where
  BID_PRICE : Option ℚ
  BID_SIZE : Option ℤ
  ASK_PRICE : Option ℚ
  ASK_SIZE : Option ℤ
deriving DecidableEq, Repr

/-- One raw depth level `{'price': ..., 'totalVolume': ...}`; either field may
be absent. -/
structure RawLevel where
  price : Option ℚ
  totalVolume : Option ℤ
deriving DecidableEq, Repr

/-- The `content` of a depth-snapshot message: raw bid and ask level lists
(`content.get('bids', [])`, `content.get('asks', [])`). -/
structure DepthContent where
  bids : List RawLevel
  asks : List RawLevel
deriving DecidableEq, Repr

/-- A depth-snapshot message: `content` is `none` when missing or falsy
(the `if not content: return` guard). -/
structure DepthMsg where
  content : Option DepthContent
deriving DecidableEq, Repr

/-- Time & Sales message content: `LAST_PRICE`, `LAST_SIZE`, `TRADE_TIME`,
each possibly absent. -/
structure TradeMsg where
  LAST_PRICE : Option ℚ
  LAST_SIZE : Option ℤ
  TRADE_TIME : Option ℤ
deriving DecidableEq, Repr

/-- `OrderedDict` assignment `d[k] = v`: if `k` is already a key, its value is
updated in place; otherwise `(k, v)` is appended at the end. -/
def odInsert (k : ℚ) (v : ℤ) : List (ℚ × ℤ) → List (ℚ × ℤ)
  | [] => [(k, v)]
  | (k', v') :: t => if k' = k then (k', v) :: t else (k', v') :: odInsert k v t

/-- One iteration of the level loop: `price = level.get('price'); volume =
level.get('totalVolume'); if price is not None and volume is not None:
new[float(price)] = int(volume)` — a level missing either field is skipped. -/
def levelStep (acc : List (ℚ × ℤ)) (lvl : RawLevel) : List (ℚ × ℤ) :=
  match lvl.price, lvl.totalVolume with
  | some p, some v => odInsert p v acc
  | _, _ => acc

/-- The loop over `content.get('bids'/'asks', [])` building a fresh
`OrderedDict` of well-formed levels. -/
def buildLevels (raw : List RawLevel) : List (ℚ × ℤ) :=
  raw.foldl levelStep []

/-- Insert into a list kept descending by price:
one step of modelling `sorted(items, key=price, reverse=True)`. -/
def insertDesc (x : ℚ × ℤ) : List (ℚ × ℤ) → List (ℚ × ℤ)
  | [] => [x]
  | y :: t => if y.1 ≤ x.1 then x :: y :: t else y :: insertDesc x t

/-- `sorted(new_bids.items(), key=price, reverse=True)`: since the keys of an
`OrderedDict` are pairwise distinct, any comparison sort yields the same
result, modelled here as insertion sort. -/
def sortBidsDesc (l : List (ℚ × ℤ)) : List (ℚ × ℤ) :=
  l.foldr insertDesc []

/-- Insert into a list kept ascending by price. -/
def insertAsc (x : ℚ × ℤ) : List (ℚ × ℤ) → List (ℚ × ℤ)
  | [] => [x]
  | y :: t => if x.1 ≤ y.1 then x :: y :: t else y :: insertAsc x t

/-- `sorted(new_asks.items(), key=price)`. -/
def sortAsksAsc (l : List (ℚ × ℤ)) : List (ℚ × ℤ) :=
  l.foldr insertAsc []

/-- `handle_level_one_equity`: overwrites every BBO field from the message
content (`current_bbo[symbol][f] = content.get(F)` for each of the four
fields) and stamps the message timestamp. Book and trade log are untouched. -/
def handle_level_one_equity (m : L1Msg) (ts : ℤ) (s : MarketState) : MarketState :=
  { s with
    bbo :=
      { bid_price := m.BID_PRICE
        bid_size := m.BID_SIZE
        ask_price := m.ASK_PRICE
        ask_size := m.ASK_SIZE
        timestamp := some ts } }

/-- `handle_level_two_book_data`: on a message with usable content, rebuilds
both book sides from the snapshot (skipping levels missing a field), sorts
bids descending and asks ascending, and, for each nonempty side, overwrites
that side's BBO price/size from the new top level; the timestamp is always
updated. A message with missing/falsy content returns unchanged state. -/
def handle_level_two_book_data (m : DepthMsg) (ts : ℤ) (s : MarketState) : MarketState :=
  match m.content with
  | none => s
  | some c =>
    let newBids := sortBidsDesc (buildLevels c.bids)
    let newAsks := sortAsksAsc (buildLevels c.asks)
    let bboAfterBid :=
      match newBids with
      | [] => s.bbo
      | (p, v) :: _ => { s.bbo with bid_price := some p, bid_size := some v }
    let bboAfterAsk :=
      match newAsks with
      | [] => bboAfterBid
      | (p, v) :: _ => { bboAfterBid with ask_price := some p, ask_size := some v }
    { s with
      book := { bids := newBids, asks := newAsks }
      bbo := { bboAfterAsk with timestamp := some ts } }

/-- The aggressor-side classification inside `handle_timesale_equity`:
`if bid is not None and ask is not None: if p >= ask: BUY elif p <= bid: SELL`,
else the initial `"UNKNOWN"`. -/
def classify (bbo : BBO) (p : ℚ) : Aggressor :=
  match bbo.bid_price, bbo.ask_price with
  | some b, some a =>
    if a ≤ p then Aggressor.BUY
    else if p ≤ b then Aggressor.SELL
    else Aggressor.UNKNOWN
  | _, _ => Aggressor.UNKNOWN

/-- `deque(maxlen=cap).append(x)`: when the deque is full the oldest element
is discarded from the left. -/
def dequeAppend (cap : ℕ) (log : List TradeRecord) (x : TradeRecord) : List TradeRecord :=
  if log.length < cap then log ++ [x] else log.drop 1 ++ [x]

/-- The trade time: `fromtimestamp(ms/1000) if trade_time_ms else now()` —
Python truthiness, so a missing or zero `TRADE_TIME` falls back to `now`. -/
def tradeTime (m : TradeMsg) (now : ℤ) : ℤ :=
  match m.TRADE_TIME with
  | some t => if t = 0 then now else t
  | none => now

/-- The `TradeRecord` that `handle_timesale_equity` builds from a message with
price `p` and volume `v`, using the BBO current at ingestion time. -/
def mkTradeRecord (bbo : BBO) (p : ℚ) (v : ℤ) (m : TradeMsg) (now : ℤ) : TradeRecord :=
  { time := tradeTime m now
    price := p
    volume := v
    aggressor := classify bbo p }

/-- `handle_timesale_equity`: `float(content.get('LAST_PRICE'))` and
`int(content.get('LAST_SIZE'))` run before any state mutation, so a missing
price or size raises inside the `try` and leaves all state unchanged;
otherwise exactly one record is appended to the bounded trade log. -/
def handle_timesale_equity (m : TradeMsg) (now : ℤ) (s : MarketState) : MarketState :=
  match m.LAST_PRICE, m.LAST_SIZE with
  | some p, some v =>
    { s with tradeLog := dequeAppend 100 s.tradeLog (mkTradeRecord s.bbo p v m now) }
  | _, _ => s

/-- Folding a batch of timesale messages (message, wall-clock now) through
`handle_timesale_equity`. -/
def processTrades (s : MarketState) (msgs : List (TradeMsg × ℤ)) : MarketState :=
  msgs.foldl (fun st mn => handle_timesale_equity mn.1 mn.2 st) s

/-- Python truthiness of an optional price: `None` and `0.0` are falsy.
Used by the renderer's `if bbo.get('ask_price') and bbo.get('bid_price')`. -/
def truthy : Option ℚ → Bool
  | none => false
  | some x => x ≠ 0

/-- One logical line of the textual bookmap view (string formatting is out of
scope; each constructor carries the data the corresponding `logger.info` line
prints). -/
inductive RenderLine where
  | askLevel (price : ℚ) (volume : ℤ) (best : Bool)
  | noAskData
  | bboLine (askPrice : ℚ) (askSize : Option ℤ) (bidPrice : ℚ) (bidSize : Option ℤ) (spread : ℚ)
  | noBBO
  | bidLevel (price : ℚ) (volume : ℤ) (best : Bool)
  | noBidData
  | tradeLine (r : TradeRecord)
  | noTrades
deriving DecidableEq, Repr

/-- The four sections of one render tick: ASKS, SPREAD, BIDS, RECENT TRADES. -/
structure RenderOutput where
  asks : List RenderLine
  spread : List RenderLine
  bids : List RenderLine
  trades : List RenderLine
deriving DecidableEq, Repr

/-- `display_bookmap_like_textual`: renders the four sections from the current
state. Level lines carry the `<-- BEST` marker (`price == bbo.get(...)`,
where comparing to `None` is `False`); an empty side prints the
`(No ... data or empty)` placeholder; the SPREAD section prints numbers only
when both BBO prices are truthy, else `(BBO data not fully available)`;
trades show the last 10, most recent first. -/
def display_bookmap_like_textual (s : MarketState) : RenderOutput :=
  let askLines := (s.book.asks.take 10).map
    (fun q => RenderLine.askLevel q.1 q.2 (decide (s.bbo.ask_price = some q.1)))
  let bidLines := (s.book.bids.take 10).map
    (fun q => RenderLine.bidLevel q.1 q.2 (decide (s.bbo.bid_price = some q.1)))
  let spreadLines :=
    if truthy s.bbo.ask_price && truthy s.bbo.bid_price then
      let a := s.bbo.ask_price.getD 0
      let b := s.bbo.bid_price.getD 0
      [RenderLine.bboLine a s.bbo.ask_size b s.bbo.bid_size (a - b)]
    else [RenderLine.noBBO]
  let tradeLines := (s.tradeLog.reverse.take 10).map RenderLine.tradeLine
  { asks := askLines ++ (if askLines.isEmpty then [RenderLine.noAskData] else [])
    spread := spreadLines
    bids := bidLines ++ (if bidLines.isEmpty then [RenderLine.noBidData] else [])
    trades := tradeLines ++ (if s.tradeLog.isEmpty then [RenderLine.noTrades] else []) }

/-- The record appended for a message whose price and size fields are present
(`Option.getD` arguments are only read under that hypothesis). -/
def recordOfMsg (bbo : BBO) (mn : TradeMsg × ℤ) : TradeRecord :=
  mkTradeRecord bbo (mn.1.LAST_PRICE.getD 0) (mn.1.LAST_SIZE.getD 0) mn.1 mn.2

/-- The initial per-symbol state: empty book, empty trade log, all BBO fields
`None`. -/
def initState : MarketState :=
  { bbo := ⟨none, none, none, none, none⟩
    book := ⟨[], []⟩
    tradeLog := [] }

/-! ### Helper lemmas: insertion sort -/

lemma insertDesc_perm (x : ℚ × ℤ) (l : List (ℚ × ℤ)) :
    (insertDesc x l).Perm (x :: l) := by
  induction l with
  | nil => simp [insertDesc]
  | cons y t ih =>
    by_cases hc : y.1 ≤ x.1
    · simp [insertDesc, hc]
    · simpa [insertDesc, hc] using (ih.cons y).trans (List.Perm.swap x y t)

lemma sortBidsDesc_perm (l : List (ℚ × ℤ)) : (sortBidsDesc l).Perm l := by
  induction l with
  | nil => simp [sortBidsDesc]
  | cons a t ih =>
    exact (insertDesc_perm a (sortBidsDesc t)).trans (ih.cons a)

lemma insertAsc_perm (x : ℚ × ℤ) (l : List (ℚ × ℤ)) :
    (insertAsc x l).Perm (x :: l) := by
  induction l with
  | nil => simp [insertAsc]
  | cons y t ih =>
    by_cases hc : x.1 ≤ y.1
    · simp [insertAsc, hc]
    · simpa [insertAsc, hc] using (ih.cons y).trans (List.Perm.swap x y t)

lemma sortAsksAsc_perm (l : List (ℚ × ℤ)) : (sortAsksAsc l).Perm l := by
  induction l with
  | nil => simp [sortAsksAsc]
  | cons a t ih =>
    exact (insertAsc_perm a (sortAsksAsc t)).trans (ih.cons a)

lemma insertDesc_pairwise (x : ℚ × ℤ) (l : List (ℚ × ℤ))
    (h : l.Pairwise (fun a b => b.1 ≤ a.1)) :
    (insertDesc x l).Pairwise (fun a b => b.1 ≤ a.1) := by
  induction l with
  | nil => simp [insertDesc]
  | cons y t ih =>
    rcases List.pairwise_cons.1 h with ⟨hy, ht⟩
    by_cases hc : y.1 ≤ x.1
    · have he : insertDesc x (y :: t) = x :: y :: t := by simp [insertDesc, hc]
      rw [he]
      refine List.pairwise_cons.2 ⟨?_, h⟩
      intro z hz
      rcases List.mem_cons.1 hz with rfl | hz
      · exact hc
      · exact le_trans (hy z hz) hc
    · have he : insertDesc x (y :: t) = y :: insertDesc x t := by simp [insertDesc, hc]
      rw [he]
      refine List.pairwise_cons.2 ⟨?_, ih ht⟩
      intro z hz
      rcases List.mem_cons.1 ((insertDesc_perm x t).mem_iff.1 hz) with rfl | hz
      · exact le_of_lt (not_le.1 hc)
      · exact hy z hz

lemma sortBidsDesc_pairwise (l : List (ℚ × ℤ)) :
    (sortBidsDesc l).Pairwise (fun a b => b.1 ≤ a.1) := by
  induction l with
  | nil => simp [sortBidsDesc]
  | cons a t ih => exact insertDesc_pairwise a (sortBidsDesc t) ih

lemma insertAsc_pairwise (x : ℚ × ℤ) (l : List (ℚ × ℤ))
    (h : l.Pairwise (fun a b => a.1 ≤ b.1)) :
    (insertAsc x l).Pairwise (fun a b => a.1 ≤ b.1) := by
  induction l with
  | nil => simp [insertAsc]
  | cons y t ih =>
    rcases List.pairwise_cons.1 h with ⟨hy, ht⟩
    by_cases hc : x.1 ≤ y.1
    · have he : insertAsc x (y :: t) = x :: y :: t := by simp [insertAsc, hc]
      rw [he]
      refine List.pairwise_cons.2 ⟨?_, h⟩
      intro z hz
      rcases List.mem_cons.1 hz with rfl | hz
      · exact hc
      · exact le_trans hc (hy z hz)
    · have he : insertAsc x (y :: t) = y :: insertAsc x t := by simp [insertAsc, hc]
      rw [he]
      refine List.pairwise_cons.2 ⟨?_, ih ht⟩
      intro z hz
      rcases List.mem_cons.1 ((insertAsc_perm x t).mem_iff.1 hz) with rfl | hz
      · exact le_of_lt (not_le.1 hc)
      · exact hy z hz

lemma sortAsksAsc_pairwise (l : List (ℚ × ℤ)) :
    (sortAsksAsc l).Pairwise (fun a b => a.1 ≤ b.1) := by
  induction l with
  | nil => simp [sortAsksAsc]
  | cons a t ih => exact insertAsc_pairwise a (sortAsksAsc t) ih

/-! ### Helper lemmas: ordered-dict keys stay pairwise distinct -/

lemma mem_fst_odInsert (k x : ℚ) (v : ℤ) (l : List (ℚ × ℤ)) :
    x ∈ (odInsert k v l).map Prod.fst ↔ x = k ∨ x ∈ l.map Prod.fst := by
  induction l with
  | nil => simp [odInsert]
  | cons y t ih =>
    by_cases hc : y.1 = k
    · subst hc
      simp [odInsert]
    · simp [odInsert, hc, ih]
      tauto

lemma odInsert_fst_nodup (k : ℚ) (v : ℤ) (l : List (ℚ × ℤ))
    (h : (l.map Prod.fst).Nodup) : ((odInsert k v l).map Prod.fst).Nodup := by
  induction l with
  | nil => simp [odInsert]
  | cons y t ih =>
    rw [List.map_cons] at h
    rcases List.nodup_cons.1 h with ⟨hy, ht⟩
    by_cases hc : y.1 = k
    · have he : odInsert k v (y :: t) = (y.1, v) :: t := by
        cases y
        simp_all [odInsert]
      rw [he, List.map_cons]
      exact List.nodup_cons.2 ⟨hy, ht⟩
    · have he : odInsert k v (y :: t) = y :: odInsert k v t := by
        cases y
        simp_all [odInsert]
      rw [he, List.map_cons]
      refine List.nodup_cons.2 ⟨?_, ih ht⟩
      intro hmem
      rcases (mem_fst_odInsert k y.1 v t).1 hmem with h1 | h1
      · exact hc h1
      · exact hy h1

lemma foldl_levelStep_fst_nodup (raw : List RawLevel) :
    ∀ acc : List (ℚ × ℤ), (acc.map Prod.fst).Nodup →
      ((raw.foldl levelStep acc).map Prod.fst).Nodup := by
  induction raw with
  | nil => intro acc h; simpa using h
  | cons lvl rest ih =>
    intro acc h
    have hstep : ((levelStep acc lvl).map Prod.fst).Nodup := by
      cases hp : lvl.price with
      | none => cases hv : lvl.totalVolume <;> simpa [levelStep, hp, hv] using h
      | some p =>
        cases hv : lvl.totalVolume with
        | none => simpa [levelStep, hp, hv] using h
        | some v => simpa [levelStep, hp, hv] using odInsert_fst_nodup p v acc h
    simpa [List.foldl_cons] using ih (levelStep acc lvl) hstep

lemma buildLevels_fst_nodup (raw : List RawLevel) :
    ((buildLevels raw).map Prod.fst).Nodup :=
  foldl_levelStep_fst_nodup raw [] (by simp)

/-! ### Helper lemmas: sorted distinct keys give strict chains -/

lemma pairwise_strict_of_desc (l : List (ℚ × ℤ))
    (hs : l.Pairwise (fun a b => b.1 ≤ a.1)) (hn : (l.map Prod.fst).Nodup) :
    l.Pairwise (fun a b => b.1 < a.1) := by
  have hne : l.Pairwise (fun a b => a.1 ≠ b.1) := List.pairwise_map.mp hn
  exact (hs.and hne).imp (fun h => lt_of_le_of_ne h.1 (Ne.symm h.2))

lemma pairwise_strict_of_asc (l : List (ℚ × ℤ))
    (hs : l.Pairwise (fun a b => a.1 ≤ b.1)) (hn : (l.map Prod.fst).Nodup) :
    l.Pairwise (fun a b => a.1 < b.1) := by
  have hne : l.Pairwise (fun a b => a.1 ≠ b.1) := List.pairwise_map.mp hn
  exact (hs.and hne).imp (fun h => lt_of_le_of_ne h.1 h.2)

lemma sortBidsDesc_fst_nodup (l : List (ℚ × ℤ)) (h : (l.map Prod.fst).Nodup) :
    ((sortBidsDesc l).map Prod.fst).Nodup :=
  (List.Perm.nodup_iff ((sortBidsDesc_perm l).map Prod.fst)).mpr h

lemma sortAsksAsc_fst_nodup (l : List (ℚ × ℤ)) (h : (l.map Prod.fst).Nodup) :
    ((sortAsksAsc l).map Prod.fst).Nodup :=
  (List.Perm.nodup_iff ((sortAsksAsc_perm l).map Prod.fst)).mpr h

lemma sortBidsDesc_strict (l : List (ℚ × ℤ)) (h : (l.map Prod.fst).Nodup) :
    (sortBidsDesc l).Pairwise (fun a b => b.1 < a.1) :=
  pairwise_strict_of_desc _ (sortBidsDesc_pairwise l) (sortBidsDesc_fst_nodup l h)

lemma sortAsksAsc_strict (l : List (ℚ × ℤ)) (h : (l.map Prod.fst).Nodup) :
    (sortAsksAsc l).Pairwise (fun a b => a.1 < b.1) :=
  pairwise_strict_of_asc _ (sortAsksAsc_pairwise l) (sortAsksAsc_fst_nodup l h)

/-! ### Helper lemmas: sorted heads bound the list -/

lemma head_max_of_desc (l : List (ℚ × ℤ))
    (hs : l.Pairwise (fun a b => b.1 ≤ a.1)) :
    ∀ q ∈ l, ∀ x, l.head? = some x → q.1 ≤ x.1 := by
  cases l with
  | nil => intro q hq; exact absurd hq (List.not_mem_nil q)
  | cons a t =>
    intro q hq x hx
    have hxa : a = x := by simpa using hx
    subst hxa
    rcases List.mem_cons.1 hq with rfl | hq
    · exact le_refl _
    · exact (List.pairwise_cons.1 hs).1 q hq

lemma head_min_of_asc (l : List (ℚ × ℤ))
    (hs : l.Pairwise (fun a b => a.1 ≤ b.1)) :
    ∀ q ∈ l, ∀ x, l.head? = some x → x.1 ≤ q.1 := by
  cases l with
  | nil => intro q hq; exact absurd hq (List.not_mem_nil q)
  | cons a t =>
    intro q hq x hx
    have hxa : a = x := by simpa using hx
    subst hxa
    rcases List.mem_cons.1 hq with rfl | hq
    · exact le_refl _
    · exact (List.pairwise_cons.1 hs).1 q hq

/-! ### Helper lemmas: depth-level building skips malformed levels -/

lemma foldl_levelStep_filter (raw : List RawLevel) :
    ∀ acc : List (ℚ × ℤ),
      raw.foldl levelStep acc =
        (raw.filter (fun lvl => lvl.price.isSome && lvl.totalVolume.isSome)).foldl
          levelStep acc := by
  induction raw with
  | nil => intro acc; rfl
  | cons lvl rest ih =>
    intro acc
    cases hp : lvl.price with
    | none => simp [List.foldl_cons, List.filter_cons, hp, levelStep, ih]
    | some p =>
      cases hv : lvl.totalVolume with
      | none => simp [List.foldl_cons, List.filter_cons, hp, hv, levelStep, ih]
      | some v => simp [List.foldl_cons, List.filter_cons, hp, hv, ih]

lemma buildLevels_filter (raw : List RawLevel) :
    buildLevels raw =
      buildLevels (raw.filter (fun lvl => lvl.price.isSome && lvl.totalVolume.isSome)) :=
  foldl_levelStep_filter raw []

/-! ### Helper lemmas: the bounded trade log -/

lemma dequeAppend_length_le (log : List TradeRecord) (x : TradeRecord)
    (h : log.length ≤ 100) : (dequeAppend 100 log x).length ≤ 100 := by
  unfold dequeAppend
  split
  · simp only [List.length_append, List.length_singleton]
    omega
  · simp only [List.length_append, List.length_drop, List.length_singleton]
    omega

lemma handle_timesale_frame (m : TradeMsg) (now : ℤ) (s : MarketState) :
    (handle_timesale_equity m now s).bbo = s.bbo ∧
    (handle_timesale_equity m now s).book = s.book := by
  cases hp : m.LAST_PRICE <;> cases hv : m.LAST_SIZE <;>
    simp [handle_timesale_equity, hp, hv]

lemma processTrades_frame (msgs : List (TradeMsg × ℤ)) :
    ∀ s : MarketState,
      (processTrades s msgs).bbo = s.bbo ∧ (processTrades s msgs).book = s.book := by
  induction msgs with
  | nil => intro s; exact ⟨rfl, rfl⟩
  | cons mn rest ih =>
    intro s
    have h1 := handle_timesale_frame mn.1 mn.2 s
    have h2 := ih (handle_timesale_equity mn.1 mn.2 s)
    exact ⟨h2.1.trans h1.1, h2.2.trans h1.2⟩

lemma processTrades_length_le (msgs : List (TradeMsg × ℤ)) :
    ∀ s : MarketState, s.tradeLog.length ≤ 100 →
      (processTrades s msgs).tradeLog.length ≤ 100 := by
  induction msgs with
  | nil => intro s h; exact h
  | cons mn rest ih =>
    intro s h
    refine ih (handle_timesale_equity mn.1 mn.2 s) ?_
    cases hp : mn.1.LAST_PRICE <;> cases hv : mn.1.LAST_SIZE <;>
      simp only [handle_timesale_equity, hp, hv] <;>
      first
        | exact h
        | exact dequeAppend_length_le _ _ h

lemma handle_timesale_appends (m : TradeMsg) (now : ℤ) (s : MarketState)
    (hp : m.LAST_PRICE.isSome) (hv : m.LAST_SIZE.isSome)
    (hlen : s.tradeLog.length < 100) :
    handle_timesale_equity m now s =
      { s with tradeLog := s.tradeLog ++ [recordOfMsg s.bbo (m, now)] } := by
  rcases Option.isSome_iff_exists.1 hp with ⟨p, hp'⟩
  rcases Option.isSome_iff_exists.1 hv with ⟨v, hv'⟩
  simp [handle_timesale_equity, hp', hv', dequeAppend, hlen, recordOfMsg]

lemma processTrades_appends (msgs : List (TradeMsg × ℤ)) :
    ∀ s : MarketState,
      (∀ mn ∈ msgs, mn.1.LAST_PRICE.isSome ∧ mn.1.LAST_SIZE.isSome) →
      s.tradeLog.length + msgs.length ≤ 100 →
      (processTrades s msgs).tradeLog = s.tradeLog ++ msgs.map (recordOfMsg s.bbo) := by
  induction msgs with
  | nil => intro s _ _; simp [processTrades]
  | cons mn rest ih =>
    intro s hall hlen
    have hmn := hall mn (List.mem_cons_self mn rest)
    have hlt : s.tradeLog.length < 100 := by
      simp only [List.length_cons] at hlen
      omega
    have hstep := handle_timesale_appends mn.1 mn.2 s hmn.1 hmn.2 hlt
    have hrest : ∀ x ∈ rest, x.1.LAST_PRICE.isSome ∧ x.1.LAST_SIZE.isSome :=
      fun x hx => hall x (List.mem_cons_of_mem mn hx)
    have hlog : (handle_timesale_equity mn.1 mn.2 s).tradeLog =
        s.tradeLog ++ [recordOfMsg s.bbo (mn.1, mn.2)] := by rw [hstep]
    have hbbo : (handle_timesale_equity mn.1 mn.2 s).bbo = s.bbo :=
      (handle_timesale_frame mn.1 mn.2 s).1
    have hlen2 : (handle_timesale_equity mn.1 mn.2 s).tradeLog.length + rest.length ≤ 100 := by
      rw [hlog]
      simp only [List.length_append, List.length_singleton, List.length_cons,
        List.length_nil] at hlen ⊢
      omega
    have hstate : processTrades s (mn :: rest) =
        processTrades (handle_timesale_equity mn.1 mn.2 s) rest := rfl
    rw [hstate, ih _ hrest hlen2, hlog, hbbo]
    simp [List.map_cons, List.append_assoc]

/-! ### Claim theorems -/

/-- C1: With both BBO sides present, the trade classifier returns BUY iff the
price is at or above the ask; otherwise SELL iff it is at or below the bid;
otherwise UNKNOWN — the three outcomes are exhaustive and mutually exclusive
in that priority order — and with either side absent it returns UNKNOWN for
every price. -/
theorem classify_spec (bbo : BBO) (p : ℚ) :
    (∀ b a, bbo.bid_price = some b → bbo.ask_price = some a →
      ((classify bbo p = Aggressor.BUY ↔ a ≤ p) ∧
       (classify bbo p = Aggressor.SELL ↔ p < a ∧ p ≤ b) ∧
       (classify bbo p = Aggressor.UNKNOWN ↔ b < p ∧ p < a))) ∧
    ((bbo.bid_price = none ∨ bbo.ask_price = none) →
      classify bbo p = Aggressor.UNKNOWN) := by
  constructor
  · intro b a hb ha
    rcases le_or_lt a p with h1 | h1
    · have hc : classify bbo p = Aggressor.BUY := by simp [classify, hb, ha, h1]
      rw [hc]
      refine ⟨by simp [h1], ?_, ?_⟩
      · constructor
        · intro h; exact absurd h (by decide)
        · rintro ⟨h2, -⟩; exact absurd h2 (not_lt.2 h1)
      · constructor
        · intro h; exact absurd h (by decide)
        · rintro ⟨-, h2⟩; exact absurd h2 (not_lt.2 h1)
    · rcases le_or_lt p b with h2 | h2
      · have hc : classify bbo p = Aggressor.SELL := by
          simp [classify, hb, ha, not_le.mpr h1, h2]
        rw [hc]
        refine ⟨?_, by simp [h1, h2], ?_⟩
        · constructor
          · intro h; exact absurd h (by decide)
          · intro hle; exact absurd h1 (not_lt.2 hle)
        · constructor
          · intro h; exact absurd h (by decide)
          · rintro ⟨h3, -⟩; exact absurd h2 (not_le.2 h3)
      · have hc : classify bbo p = Aggressor.UNKNOWN := by
          simp [classify, hb, ha, not_le.mpr h1, not_le.mpr h2]
        rw [hc]
        refine ⟨?_, ?_, by simp [h1, h2]⟩
        · constructor
          · intro h; exact absurd h (by decide)
          · intro hle; exact absurd h1 (not_lt.2 hle)
        · constructor
          · intro h; exact absurd h (by decide)
          · rintro ⟨-, h3⟩; exact absurd h2 (not_lt.2 h3)
  · intro h
    rcases h with h | h
    · cases ha : bbo.ask_price <;> simp [classify, h, ha]
    · cases hb : bbo.bid_price <;> simp [classify, h, hb]

/-- Witness for C1 on the spec's scenario book (bid 100, ask 100.05): a trade
at 100.05 is BUY, at 100 is SELL, and with an absent bid everything is
UNKNOWN. -/
theorem classify_spec_witness :
    classify ⟨some 100, some 500, some (2001/20), some 200, none⟩ (2001/20) = Aggressor.BUY ∧
    classify ⟨some 100, some 500, some (2001/20), some 200, none⟩ 100 = Aggressor.SELL ∧
    classify ⟨none, none, some (2001/20), none, none⟩ 50 = Aggressor.UNKNOWN :=
  ⟨((classify_spec ⟨some 100, some 500, some (2001/20), some 200, none⟩ (2001/20)).1
      100 (2001/20) rfl rfl).1.mpr (by norm_num),
   ((classify_spec ⟨some 100, some 500, some (2001/20), some 200, none⟩ 100).1
      100 (2001/20) rfl rfl).2.1.mpr (by norm_num),
   (classify_spec ⟨none, none, some (2001/20), none, none⟩ 50).2 (Or.inl rfl)⟩

/-- C2: After every depth-snapshot call that replaces the book, the stored bid
prices are strictly decreasing and the stored ask prices strictly increasing
in iteration order. -/
theorem replace_depth_sorted (s : MarketState) (m : DepthMsg) (ts : ℤ)
    (c : DepthContent) (h : m.content = some c) :
    ((handle_level_two_book_data m ts s).book.bids).Pairwise (fun x y => y.1 < x.1) ∧
    ((handle_level_two_book_data m ts s).book.asks).Pairwise (fun x y => x.1 < y.1) := by
  have hbook : (handle_level_two_book_data m ts s).book =
      { bids := sortBidsDesc (buildLevels c.bids)
        asks := sortAsksAsc (buildLevels c.asks) } := by
    simp [handle_level_two_book_data, h]
  rw [hbook]
  exact ⟨sortBidsDesc_strict _ (buildLevels_fst_nodup c.bids),
         sortAsksAsc_strict _ (buildLevels_fst_nodup c.asks)⟩

/-- Witness for C2: an out-of-order snapshot with a duplicate bid price and a
malformed ask level still yields a strictly sorted book. -/
theorem replace_depth_sorted_witness :
    ((handle_level_two_book_data
        ⟨some ⟨[⟨some 99, some 1⟩, ⟨some 100, some 2⟩, ⟨some 99, some 3⟩],
               [⟨some 101, some 4⟩, ⟨none, some 9⟩, ⟨some 102, some 5⟩]⟩⟩
        3 initState).book.bids).Pairwise (fun x y => y.1 < x.1) ∧
    ((handle_level_two_book_data
        ⟨some ⟨[⟨some 99, some 1⟩, ⟨some 100, some 2⟩, ⟨some 99, some 3⟩],
               [⟨some 101, some 4⟩, ⟨none, some 9⟩, ⟨some 102, some 5⟩]⟩⟩
        3 initState).book.asks).Pairwise (fun x y => x.1 < y.1) :=
  replace_depth_sorted initState
    ⟨some ⟨[⟨some 99, some 1⟩, ⟨some 100, some 2⟩, ⟨some 99, some 3⟩],
           [⟨some 101, some 4⟩, ⟨none, some 9⟩, ⟨some 102, some 5⟩]⟩⟩
    3 _ rfl

/-- C3 counterexample: a quote update carrying only bid fields does NOT leave
the prior ask fields unchanged — `handle_level_one_equity` overwrites
`ask_price`/`ask_size` with the absent message values, so a prior ask of
100.05/200 becomes absent. -/
theorem l1_partial_update_fails :
    (handle_level_one_equity ⟨some 101, some 5, none, none⟩ 7
        ⟨⟨some 100, some 500, some (2001/20), some 200, none⟩, ⟨[], []⟩, []⟩).bbo.ask_price
      = none ∧
    (handle_level_one_equity ⟨some 101, some 5, none, none⟩ 7
        ⟨⟨some 100, some 500, some (2001/20), some 200, none⟩, ⟨[], []⟩, []⟩).bbo.ask_size
      = none ∧
    (⟨⟨some 100, some 500, some (2001/20), some 200, none⟩, ⟨[], []⟩, []⟩
        : MarketState).bbo.ask_price = some (2001/20) ∧
    (⟨⟨some 100, some 500, some (2001/20), some 200, none⟩, ⟨[], []⟩, []⟩
        : MarketState).bbo.ask_size = some 200 :=
  ⟨rfl, rfl, rfl, rfl⟩

/-- C3 amended: the quote ingestor overwrites all four BBO fields from the
message, so an update in which only the bid fields are present sets the bid
fields to the message values and the ask fields to absent (it does not keep
their prior values); the depth book and trade log are unchanged. -/
theorem l1_update_overwrites_all_fields (s : MarketState) (m : L1Msg) (ts : ℤ)
    (hap : m.ASK_PRICE = none) (has : m.ASK_SIZE = none) :
    (handle_level_one_equity m ts s).bbo.bid_price = m.BID_PRICE ∧
    (handle_level_one_equity m ts s).bbo.bid_size = m.BID_SIZE ∧
    (handle_level_one_equity m ts s).bbo.ask_price = none ∧
    (handle_level_one_equity m ts s).bbo.ask_size = none ∧
    (handle_level_one_equity m ts s).book = s.book ∧
    (handle_level_one_equity m ts s).tradeLog = s.tradeLog := by
  simp [handle_level_one_equity, hap, has]

/-- Witness for the amended C3 at a concrete bid-only update. -/
theorem l1_update_overwrites_all_fields_witness :
    (handle_level_one_equity ⟨some 101, some 5, none, none⟩ 7 initState).bbo.bid_price
      = some 101 ∧
    (handle_level_one_equity ⟨some 101, some 5, none, none⟩ 7 initState).bbo.bid_size
      = some 5 ∧
    (handle_level_one_equity ⟨some 101, some 5, none, none⟩ 7 initState).bbo.ask_price
      = none ∧
    (handle_level_one_equity ⟨some 101, some 5, none, none⟩ 7 initState).bbo.ask_size
      = none ∧
    (handle_level_one_equity ⟨some 101, some 5, none, none⟩ 7 initState).book
      = initState.book ∧
    (handle_level_one_equity ⟨some 101, some 5, none, none⟩ 7 initState).tradeLog
      = initState.tradeLog :=
  l1_update_overwrites_all_fields initState ⟨some 101, some 5, none, none⟩ 7 rfl rfl

/-- C8: On a render tick with an empty depth book, both the ASKS and the BIDS
sections consist of the explicit no-data placeholder line instead of an empty
table. -/
theorem render_empty_book_placeholder (s : MarketState)
    (ha : s.book.asks = []) (hb : s.book.bids = []) :
    (display_bookmap_like_textual s).asks = [RenderLine.noAskData] ∧
    (display_bookmap_like_textual s).bids = [RenderLine.noBidData] := by
  simp [display_bookmap_like_textual, ha, hb]

/-- Witness for C8 at the initial (empty-book) state. -/
theorem render_empty_book_placeholder_witness :
    (display_bookmap_like_textual initState).asks = [RenderLine.noAskData] ∧
    (display_bookmap_like_textual initState).bids = [RenderLine.noBidData] :=
  render_empty_book_placeholder initState rfl rfl

/-- C9: The renderer's SPREAD section tests the BBO prices for Python
truthiness, so a stored price equal to zero is treated like an absent price
and the section shows the BBO-not-available placeholder. -/
theorem render_zero_price_no_bbo (s : MarketState)
    (_hb : s.bbo.bid_price.isSome) (_ha : s.bbo.ask_price.isSome)
    (hz : s.bbo.bid_price = some 0 ∨ s.bbo.ask_price = some 0) :
    (display_bookmap_like_textual s).spread = [RenderLine.noBBO] := by
  rcases hz with h | h <;> simp [display_bookmap_like_textual, truthy, h]

/-- Witness for C9: bid present but zero, ask present and positive. -/
theorem render_zero_price_no_bbo_witness :
    (display_bookmap_like_textual
        ⟨⟨some 0, some 1, some 100, some 1, none⟩, ⟨[], []⟩, []⟩).spread
      = [RenderLine.noBBO] :=
  render_zero_price_no_bbo ⟨⟨some 0, some 1, some 100, some 1, none⟩, ⟨[], []⟩, []⟩
    rfl rfl (Or.inl rfl)

/-- C10: A trade message missing its price or size leaves the whole state
unchanged (no partial mutation, no error); a message with both fields appends
exactly one record to the bounded trade log and leaves the BBO and depth book
unchanged. -/
theorem timesale_atomic (s : MarketState) (m : TradeMsg) (now : ℤ) :
    ((m.LAST_PRICE = none ∨ m.LAST_SIZE = none) →
      handle_timesale_equity m now s = s) ∧
    (∀ p v, m.LAST_PRICE = some p → m.LAST_SIZE = some v →
      (handle_timesale_equity m now s).bbo = s.bbo ∧
      (handle_timesale_equity m now s).book = s.book ∧
      (handle_timesale_equity m now s).tradeLog =
        dequeAppend 100 s.tradeLog (mkTradeRecord s.bbo p v m now)) := by
  constructor
  · intro h
    rcases h with h | h
    · cases hv : m.LAST_SIZE <;> simp [handle_timesale_equity, h, hv]
    · cases hp : m.LAST_PRICE <;> simp [handle_timesale_equity, h, hp]
  · intro p v hp hv
    simp [handle_timesale_equity, hp, hv]

/-- Witness for C10: a sizeless message is a no-op; a complete message appends
one record. -/
theorem timesale_atomic_witness :
    handle_timesale_equity ⟨some 10, none, none⟩ 0 initState = initState ∧
    (handle_timesale_equity ⟨some 10, some 5, none⟩ 0 initState).tradeLog =
      dequeAppend 100 initState.tradeLog
        (mkTradeRecord initState.bbo 10 5 ⟨some 10, some 5, none⟩ 0) :=
  ⟨(timesale_atomic initState ⟨some 10, none, none⟩ 0).1 (Or.inr rfl),
   ((timesale_atomic initState ⟨some 10, some 5, none⟩ 0).2 10 5 rfl rfl).2.2⟩

/-- C4: A trade-log of length at most 100 stays at most 100 across any
sequence of trade messages, and 101 well-formed trade messages processed from
an empty log leave exactly the last 100 of the corresponding records, in
append order — the oldest record has been evicted (FIFO). -/
theorem trade_log_bounded_fifo :
    (∀ (s : MarketState) (msgs : List (TradeMsg × ℤ)), s.tradeLog.length ≤ 100 →
      (processTrades s msgs).tradeLog.length ≤ 100) ∧
    (∀ (s : MarketState) (msgs : List (TradeMsg × ℤ)),
      s.tradeLog = [] → msgs.length = 101 →
      (∀ mn ∈ msgs, mn.1.LAST_PRICE.isSome ∧ mn.1.LAST_SIZE.isSome) →
      (processTrades s msgs).tradeLog = (msgs.map (recordOfMsg s.bbo)).drop 1) := by
  constructor
  · intro s msgs h
    exact processTrades_length_le msgs s h
  · intro s msgs h0 hlen hall
    have hne : msgs ≠ [] := by
      intro hh
      rw [hh] at hlen
      simp at hlen
    have hdecomp : msgs.dropLast ++ [msgs.getLast hne] = msgs :=
      List.dropLast_append_getLast hne
    have hxs_len : msgs.dropLast.length = 100 := by
      rw [List.length_dropLast, hlen]
    have hall_xs : ∀ mn ∈ msgs.dropLast,
        mn.1.LAST_PRICE.isSome ∧ mn.1.LAST_SIZE.isSome := by
      intro mn hm
      refine hall mn ?_
      rw [← hdecomp]
      exact List.mem_append_left _ hm
    have h1 : (processTrades s msgs.dropLast).tradeLog =
        s.tradeLog ++ msgs.dropLast.map (recordOfMsg s.bbo) :=
      processTrades_appends _ s hall_xs (by rw [h0]; simp [hxs_len])
    have hbbo1 : (processTrades s msgs.dropLast).bbo = s.bbo :=
      (processTrades_frame _ s).1
    have hzmem : msgs.getLast hne ∈ msgs := List.getLast_mem hne
    rcases Option.isSome_iff_exists.1 (hall _ hzmem).1 with ⟨p, hp'⟩
    rcases Option.isSome_iff_exists.1 (hall _ hzmem).2 with ⟨v, hv'⟩
    have hloglen : (processTrades s msgs.dropLast).tradeLog.length = 100 := by
      rw [h1, h0, List.nil_append, List.length_map, hxs_len]
    have hsplit : processTrades s msgs =
        handle_timesale_equity (msgs.getLast hne).1 (msgs.getLast hne).2
          (processTrades s msgs.dropLast) := by
      conv_lhs => rw [← hdecomp]
      simp [processTrades, List.foldl_append]
    have hfinal : (handle_timesale_equity (msgs.getLast hne).1 (msgs.getLast hne).2
        (processTrades s msgs.dropLast)).tradeLog =
        ((processTrades s msgs.dropLast).tradeLog).drop 1 ++
          [mkTradeRecord (processTrades s msgs.dropLast).bbo p v
            (msgs.getLast hne).1 (msgs.getLast hne).2] := by
      simp [handle_timesale_equity, hp', hv', dequeAppend, hloglen]
    have hrec : mkTradeRecord s.bbo p v (msgs.getLast hne).1 (msgs.getLast hne).2 =
        recordOfMsg s.bbo (msgs.getLast hne) := by
      simp [recordOfMsg, hp', hv']
    have hmapsplit : msgs.map (recordOfMsg s.bbo) =
        msgs.dropLast.map (recordOfMsg s.bbo) ++ [recordOfMsg s.bbo (msgs.getLast hne)] := by
      conv_lhs => rw [← hdecomp]
      simp
    have hlen1 : 1 ≤ (msgs.dropLast.map (recordOfMsg s.bbo)).length := by
      rw [List.length_map, hxs_len]
      omega
    rw [hsplit, hfinal, hbbo1, hrec, h1, h0, hmapsplit,
      List.drop_append_of_le_length hlen1]
    simp

/-- Witness for C4: 101 identical well-formed trade messages from the empty
state leave a log of the newest 100 records and respect the capacity bound. -/
theorem trade_log_bounded_fifo_witness :
    (processTrades initState
        (List.replicate 101 ((⟨some 1, some 1, none⟩ : TradeMsg), (0 : ℤ)))).tradeLog.length
      ≤ 100 ∧
    (processTrades initState
        (List.replicate 101 ((⟨some 1, some 1, none⟩ : TradeMsg), (0 : ℤ)))).tradeLog =
      ((List.replicate 101 ((⟨some 1, some 1, none⟩ : TradeMsg), (0 : ℤ))).map
        (recordOfMsg initState.bbo)).drop 1 :=
  ⟨trade_log_bounded_fifo.1 initState _ (by simp [initState]),
   trade_log_bounded_fifo.2 initState _ rfl (by simp)
     (by
       intro mn hm
       rw [List.eq_of_mem_replicate hm]
       exact ⟨rfl, rfl⟩)⟩

/-- C5 counterexample: a snapshot whose bid list is empty empties the stored
bid book, but the BestQuote bid fields do NOT become absent — the BBO update
is guarded by `if order_book[symbol]['bids']:`, so the prior bid 100/500
survives the replacement. -/
theorem replace_depth_empty_side_bbo_not_cleared :
    ((handle_level_two_book_data ⟨some ⟨[], [⟨some 101, some 7⟩]⟩⟩ 9
        ⟨⟨some 100, some 500, some (2001/20), some 200, none⟩,
         ⟨[(100, 500)], []⟩, []⟩).book.bids = []) ∧
    ((handle_level_two_book_data ⟨some ⟨[], [⟨some 101, some 7⟩]⟩⟩ 9
        ⟨⟨some 100, some 500, some (2001/20), some 200, none⟩,
         ⟨[(100, 500)], []⟩, []⟩).bbo.bid_price = some 100) ∧
    ((handle_level_two_book_data ⟨some ⟨[], [⟨some 101, some 7⟩]⟩⟩ 9
        ⟨⟨some 100, some 500, some (2001/20), some 200, none⟩,
         ⟨[(100, 500)], []⟩, []⟩).bbo.bid_size = some 500) :=
  ⟨rfl, rfl, rfl⟩

/-- C5 amended: a snapshot with an empty bid (resp. ask) list leaves that
side's stored book empty and replaces the other side from the snapshot, and
the BestQuote fields for the emptied side retain their prior values (they are
not updated, in particular they do not become absent). -/
theorem replace_depth_empty_side (s : MarketState) (m : DepthMsg) (ts : ℤ)
    (c : DepthContent) (h : m.content = some c) :
    (c.bids = [] →
      (handle_level_two_book_data m ts s).book.bids = [] ∧
      (handle_level_two_book_data m ts s).book.asks = sortAsksAsc (buildLevels c.asks) ∧
      (handle_level_two_book_data m ts s).bbo.bid_price = s.bbo.bid_price ∧
      (handle_level_two_book_data m ts s).bbo.bid_size = s.bbo.bid_size) ∧
    (c.asks = [] →
      (handle_level_two_book_data m ts s).book.asks = [] ∧
      (handle_level_two_book_data m ts s).book.bids = sortBidsDesc (buildLevels c.bids) ∧
      (handle_level_two_book_data m ts s).bbo.ask_price = s.bbo.ask_price ∧
      (handle_level_two_book_data m ts s).bbo.ask_size = s.bbo.ask_size) := by
  constructor
  · intro hbids
    have hnil : sortBidsDesc (buildLevels c.bids) = [] := by rw [hbids]; rfl
    cases hA : sortAsksAsc (buildLevels c.asks) with
    | nil => simp [handle_level_two_book_data, h, hnil, hA]
    | cons hd tl =>
      cases hd
      simp [handle_level_two_book_data, h, hnil, hA]
  · intro hasks
    have hnil : sortAsksAsc (buildLevels c.asks) = [] := by rw [hasks]; rfl
    cases hB : sortBidsDesc (buildLevels c.bids) with
    | nil => simp [handle_level_two_book_data, h, hnil, hB]
    | cons hd tl =>
      cases hd
      simp [handle_level_two_book_data, h, hnil, hB]

/-- Witness for the amended C5: an empty-bid snapshot and an empty-ask
snapshot against a state with both BBO sides present. -/
theorem replace_depth_empty_side_witness :
    ((handle_level_two_book_data ⟨some ⟨[], [⟨some 101, some 7⟩]⟩⟩ 9
        ⟨⟨some 100, some 500, some (2001/20), some 200, none⟩,
         ⟨[(100, 500)], []⟩, []⟩).book.bids = [] ∧
     (handle_level_two_book_data ⟨some ⟨[], [⟨some 101, some 7⟩]⟩⟩ 9
        ⟨⟨some 100, some 500, some (2001/20), some 200, none⟩,
         ⟨[(100, 500)], []⟩, []⟩).book.asks
       = sortAsksAsc (buildLevels [⟨some 101, some 7⟩]) ∧
     (handle_level_two_book_data ⟨some ⟨[], [⟨some 101, some 7⟩]⟩⟩ 9
        ⟨⟨some 100, some 500, some (2001/20), some 200, none⟩,
         ⟨[(100, 500)], []⟩, []⟩).bbo.bid_price = some 100 ∧
     (handle_level_two_book_data ⟨some ⟨[], [⟨some 101, some 7⟩]⟩⟩ 9
        ⟨⟨some 100, some 500, some (2001/20), some 200, none⟩,
         ⟨[(100, 500)], []⟩, []⟩).bbo.bid_size = some 500) ∧
    ((handle_level_two_book_data ⟨some ⟨[⟨some 99, some 3⟩], []⟩⟩ 9
        ⟨⟨some 100, some 500, some (2001/20), some 200, none⟩,
         ⟨[], [(101, 7)]⟩, []⟩).book.asks = [] ∧
     (handle_level_two_book_data ⟨some ⟨[⟨some 99, some 3⟩], []⟩⟩ 9
        ⟨⟨some 100, some 500, some (2001/20), some 200, none⟩,
         ⟨[], [(101, 7)]⟩, []⟩).book.bids
       = sortBidsDesc (buildLevels [⟨some 99, some 3⟩]) ∧
     (handle_level_two_book_data ⟨some ⟨[⟨some 99, some 3⟩], []⟩⟩ 9
        ⟨⟨some 100, some 500, some (2001/20), some 200, none⟩,
         ⟨[], [(101, 7)]⟩, []⟩).bbo.ask_price = some (2001/20) ∧
     (handle_level_two_book_data ⟨some ⟨[⟨some 99, some 3⟩], []⟩⟩ 9
        ⟨⟨some 100, some 500, some (2001/20), some 200, none⟩,
         ⟨[], [(101, 7)]⟩, []⟩).bbo.ask_size = some 200) :=
  ⟨(replace_depth_empty_side
      ⟨⟨some 100, some 500, some (2001/20), some 200, none⟩, ⟨[(100, 500)], []⟩, []⟩
      ⟨some ⟨[], [⟨some 101, some 7⟩]⟩⟩ 9 ⟨[], [⟨some 101, some 7⟩]⟩ rfl).1 rfl,
   (replace_depth_empty_side
      ⟨⟨some 100, some 500, some (2001/20), some 200, none⟩, ⟨[], [(101, 7)]⟩, []⟩
      ⟨some ⟨[⟨some 99, some 3⟩], []⟩⟩ 9 ⟨[⟨some 99, some 3⟩], []⟩ rfl).2 rfl⟩

/-- C6: A snapshot with (well-formed) nonempty bid and ask lists replaces the
full depth book — the stored sides are exactly the parsed snapshot levels —
and recomputes the BBO from the new tops: bid price/size come from the head of
the descending bid book (its maximal price), ask price/size from the head of
the ascending ask book (its minimal price), and the timestamp is the message
timestamp; on the spec's scenario the result is best bid 100/500, best ask
100.05/200 with spread 0.05. -/
theorem replace_depth_recomputes_bbo :
    (∀ (s : MarketState) (m : DepthMsg) (ts : ℤ) (c : DepthContent),
      m.content = some c →
      buildLevels c.bids ≠ [] → buildLevels c.asks ≠ [] →
      ((handle_level_two_book_data m ts s).book.bids).Perm (buildLevels c.bids) ∧
      ((handle_level_two_book_data m ts s).book.asks).Perm (buildLevels c.asks) ∧
      (handle_level_two_book_data m ts s).bbo.bid_price =
        ((handle_level_two_book_data m ts s).book.bids.head?).map Prod.fst ∧
      (handle_level_two_book_data m ts s).bbo.bid_size =
        ((handle_level_two_book_data m ts s).book.bids.head?).map Prod.snd ∧
      (handle_level_two_book_data m ts s).bbo.ask_price =
        ((handle_level_two_book_data m ts s).book.asks.head?).map Prod.fst ∧
      (handle_level_two_book_data m ts s).bbo.ask_size =
        ((handle_level_two_book_data m ts s).book.asks.head?).map Prod.snd ∧
      (∀ q ∈ (handle_level_two_book_data m ts s).book.bids, ∀ bp,
        (handle_level_two_book_data m ts s).bbo.bid_price = some bp → q.1 ≤ bp) ∧
      (∀ q ∈ (handle_level_two_book_data m ts s).book.asks, ∀ ap,
        (handle_level_two_book_data m ts s).bbo.ask_price = some ap → ap ≤ q.1) ∧
      (handle_level_two_book_data m ts s).bbo.timestamp = some ts) ∧
    ((handle_level_two_book_data
        ⟨some ⟨[⟨some 100, some 500⟩, ⟨some (9999/100), some 300⟩],
               [⟨some (2001/20), some 200⟩, ⟨some (5003/50), some 400⟩]⟩⟩ 5
        initState).bbo.bid_price = some 100 ∧
     (handle_level_two_book_data
        ⟨some ⟨[⟨some 100, some 500⟩, ⟨some (9999/100), some 300⟩],
               [⟨some (2001/20), some 200⟩, ⟨some (5003/50), some 400⟩]⟩⟩ 5
        initState).bbo.bid_size = some 500 ∧
     (handle_level_two_book_data
        ⟨some ⟨[⟨some 100, some 500⟩, ⟨some (9999/100), some 300⟩],
               [⟨some (2001/20), some 200⟩, ⟨some (5003/50), some 400⟩]⟩⟩ 5
        initState).bbo.ask_price = some (2001/20) ∧
     (handle_level_two_book_data
        ⟨some ⟨[⟨some 100, some 500⟩, ⟨some (9999/100), some 300⟩],
               [⟨some (2001/20), some 200⟩, ⟨some (5003/50), some 400⟩]⟩⟩ 5
        initState).bbo.ask_size = some 200 ∧
     (display_bookmap_like_textual
        (handle_level_two_book_data
          ⟨some ⟨[⟨some 100, some 500⟩, ⟨some (9999/100), some 300⟩],
                 [⟨some (2001/20), some 200⟩, ⟨some (5003/50), some 400⟩]⟩⟩ 5
          initState)).spread
       = [RenderLine.bboLine (2001/20) (some 200) 100 (some 500) (1/20)]) := by
  constructor
  · intro s m ts c h hbne hane
    have hBperm := sortBidsDesc_perm (buildLevels c.bids)
    have hAperm := sortAsksAsc_perm (buildLevels c.asks)
    have hBne : sortBidsDesc (buildLevels c.bids) ≠ [] := by
      intro hh
      have hlen := hBperm.length_eq
      rw [hh] at hlen
      exact hbne (List.length_eq_zero.1 hlen.symm)
    have hAne : sortAsksAsc (buildLevels c.asks) ≠ [] := by
      intro hh
      have hlen := hAperm.length_eq
      rw [hh] at hlen
      exact hane (List.length_eq_zero.1 hlen.symm)
    obtain ⟨⟨bp, bv⟩, Bt, hBcons⟩ : ∃ x t, sortBidsDesc (buildLevels c.bids) = x :: t := by
      cases hB : sortBidsDesc (buildLevels c.bids) with
      | nil => exact absurd hB hBne
      | cons x t => exact ⟨x, t, rfl⟩
    obtain ⟨⟨ap, av⟩, At, hAcons⟩ : ∃ x t, sortAsksAsc (buildLevels c.asks) = x :: t := by
      cases hA : sortAsksAsc (buildLevels c.asks) with
      | nil => exact absurd hA hAne
      | cons x t => exact ⟨x, t, rfl⟩
    have hresult : handle_level_two_book_data m ts s =
        { bbo := ⟨some bp, some bv, some ap, some av, some ts⟩
          book := ⟨(bp, bv) :: Bt, (ap, av) :: At⟩
          tradeLog := s.tradeLog } := by
      simp [handle_level_two_book_data, h, hBcons, hAcons]
    have hBsorted : ((bp, bv) :: Bt).Pairwise (fun a b => b.1 ≤ a.1) := by
      rw [← hBcons]
      exact sortBidsDesc_pairwise _
    have hAsorted : ((ap, av) :: At).Pairwise (fun a b => a.1 ≤ b.1) := by
      rw [← hAcons]
      exact sortAsksAsc_pairwise _
    rw [hresult]
    refine ⟨?_, ?_, rfl, rfl, rfl, rfl, ?_, ?_, rfl⟩
    · rw [← hBcons]
      exact hBperm
    · rw [← hAcons]
      exact hAperm
    · intro q hq bp' hbp'
      injection hbp' with hh
      rw [← hh]
      exact head_max_of_desc _ hBsorted q hq (bp, bv) rfl
    · intro q hq ap' hap'
      injection hap' with hh
      rw [← hh]
      exact head_min_of_asc _ hAsorted q hq (ap, av) rfl
  · refine ⟨?_, ?_, ?_, ?_, ?_⟩ <;>
      norm_num [handle_level_two_book_data, buildLevels, levelStep, odInsert,
        sortBidsDesc, sortAsksAsc, insertDesc, insertAsc, initState,
        display_bookmap_like_textual, truthy]

/-- Witness for C6's general part, applied to the spec's scenario snapshot. -/
theorem replace_depth_recomputes_bbo_witness :
    (handle_level_two_book_data
        ⟨some ⟨[⟨some 100, some 500⟩, ⟨some (9999/100), some 300⟩],
               [⟨some (2001/20), some 200⟩, ⟨some (5003/50), some 400⟩]⟩⟩ 5
        initState).bbo.timestamp = some 5 :=
  (replace_depth_recomputes_bbo.1 initState
    ⟨some ⟨[⟨some 100, some 500⟩, ⟨some (9999/100), some 300⟩],
           [⟨some (2001/20), some 200⟩, ⟨some (5003/50), some 400⟩]⟩⟩ 5
    ⟨[⟨some 100, some 500⟩, ⟨some (9999/100), some 300⟩],
     [⟨some (2001/20), some 200⟩, ⟨some (5003/50), some 400⟩]⟩
    rfl
    (by intro hh; norm_num [buildLevels, levelStep, odInsert] at hh
        exact List.cons_ne_nil _ _ hh)
    (by intro hh; norm_num [buildLevels, levelStep, odInsert] at hh
        exact List.cons_ne_nil _ _ hh)).2.2.2.2.2.2.2.2

/-- C7 counterexample: the depth ingestor parses sizes with `int(...)` and no
sign check, so a snapshot level with a negative `totalVolume` is stored as-is
— sizes are not parsed as NON-NEGATIVE integers as claimed. -/
theorem depth_negative_size_stored :
    (handle_level_two_book_data ⟨some ⟨[⟨some 100, some (-5)⟩], []⟩⟩ 9
        initState).book.bids = [(100, -5)] ∧
    ((-5 : ℤ) < 0) :=
  ⟨rfl, by decide⟩

/-- C7 amended: every depth entry missing its price or its size field is
skipped while the remaining well-formed entries are still applied — processing
a snapshot is identical to processing the snapshot restricted to its
well-formed entries; prices are parsed as decimals and sizes as integers (the
sign is not checked: a negative size field is stored as-is); ingestion is a
total function of the message, so no input raises an error to the caller. -/
theorem depth_skips_malformed (s : MarketState) (m : DepthMsg) (ts : ℤ)
    (c : DepthContent) (h : m.content = some c) :
    handle_level_two_book_data m ts s =
      handle_level_two_book_data
        ⟨some ⟨c.bids.filter (fun lvl => lvl.price.isSome && lvl.totalVolume.isSome),
               c.asks.filter (fun lvl => lvl.price.isSome && lvl.totalVolume.isSome)⟩⟩
        ts s := by
  simp only [handle_level_two_book_data, h]
  rw [← buildLevels_filter c.bids, ← buildLevels_filter c.asks]

/-- Witness for the amended C7: a snapshot with a priceless bid level and a
sizeless ask level is processed exactly like the snapshot holding only its
well-formed entry. -/
theorem depth_skips_malformed_witness :
    handle_level_two_book_data
        ⟨some ⟨[⟨some 100, some 5⟩, ⟨none, some 9⟩], [⟨some 101, none⟩]⟩⟩ 2 initState =
      handle_level_two_book_data ⟨some ⟨[⟨some 100, some 5⟩], []⟩⟩ 2 initState :=
  depth_skips_malformed initState
    ⟨some ⟨[⟨some 100, some 5⟩, ⟨none, some 9⟩], [⟨some 101, none⟩]⟩⟩ 2
    ⟨[⟨some 100, some 5⟩, ⟨none, some 9⟩], [⟨some 101, none⟩]⟩ rfl
